import Mathlib

/-!
Verification of the country/currency synchronization service.

The definitions below are a shallow embedding of `src/service.py` (class
`Service`), with the persisted tables of `src/db.py` modelled as explicit
state.  External effects are made explicit:

* the two upstream HTTP fetches become `FetchOutcome` inputs (a fetch can
  succeed with a validated payload, fail at the transport layer, or return a
  payload that fails pydantic validation);
* `random.uniform(1000, 2000)` becomes an explicit stream
  `factors : ℕ → ℚ` of drawn factors, consumed left to right;
* `datetime.now()` becomes an explicit `now : ℕ` tick;
* Python exceptions become `Except Err`; the session's
  commit/rollback discipline is captured by returning, next to the
  `Except` result, the store that is visible after the call.
-/

namespace CountrySvc

/-- Exception taxonomy of the service, from `src/error.py` plus the runtime
errors that can escape `src/service.py`: `ServiceUnavailableError`
(`upstreamUnavailable`), pydantic `ValidationError` (`validationError`),
Python `ZeroDivisionError` (`zeroDivision`), an error escaping
`generate_image` (`imageError`), `NotFoundError` (`notFound`) and
SQLAlchemy `MultipleResultsFound` (`multipleResults`). -/
inductive Err where
  | upstreamUnavailable
  | validationError
  | zeroDivision
  | imageError
  | notFound
  | multipleResults
deriving DecidableEq, Repr

/-- Outcome of one upstream HTTP GET followed by pydantic validation:
either a validated payload, a transport-layer failure (network error,
non-2xx status, undecodable body), or a payload that fails model
validation. -/
inductive FetchOutcome (α : Type) where
  | ok (a : α)
  | transportError
  | invalidPayload
deriving DecidableEq, Repr

/-- One element of the `currencies` array of a country payload
(`src/schema.py`, class `Currency`): all three fields are optional. -/
structure CurrencyItem where
  code : Option String
  cname : Option String
  symbol : Option String
deriving DecidableEq, Repr

/-- One validated country payload (`src/schema.py`, class `CountryApiItem`):
`name` and `flag` are required strings, `population` a non-negative integer,
`capital`/`region`/`currencies` optional, `independent` a required boolean. -/
structure CountryApiItem where
  name : String
  population : ℕ
  capital : Option String
  region : Option String
  currencies : Option (List CurrencyItem)
  flag : String
  independent : Bool
deriving DecidableEq, Repr

/-- The validated exchange-rate table (`CurrencyApiResponse.rates`,
a `dict[str, float]`): an association list from currency code to rate.
Python floats are modelled as rationals. -/
abbrev RatesTable : Type := List (String × ℚ)

/-- One persisted `Country` row (`src/db.py`, class `Country`), restricted to
the columns written and read by the service. -/
structure CountryRow where
  name : String
  capital : Option String
  region : Option String
  population : ℕ
  currency_code : String
  exchange_rate : ℚ
  estimated_gdp : ℚ
  flag_url : String
  independent : Bool
  last_refreshed_at : ℕ
deriving DecidableEq, Repr

/-- The persistence store: the `countries` table plus the single `Status`
row named `"api_fetch"` (its `last_refreshed_at`, or `none` when the row was
never inserted). -/
structure Store where
  countries : List CountryRow
  status_last : Option ℕ
deriving DecidableEq, Repr

/-- `rates.get(currency_code)` from `Service.fetch_rate`: the code taken from
the payload may be `None` (the `Currency.code` field is optional), in which
case the lookup in the string-keyed dict misses. -/
def lookupRate (rt : RatesTable) : Option String → Option ℚ
  | none => none
  | some code => rt.lookup code

/-- `Service.fetch_rate`: re-fetch and validate the whole rates table
(`_fetch_currency_data` wraps transport failures in
`ServiceUnavailableError`; a validation failure of the payload is raised
raw by `CurrencyApiResponse.model_validate` and re-raised unchanged), then
look the code up, returning `None` (not an error) when absent. -/
def fetch_rate (rf : FetchOutcome RatesTable) (code : Option String) :
    Except Err (Option ℚ) :=
  match rf with
  | .transportError => .error .upstreamUnavailable
  | .invalidPayload => .error .validationError
  | .ok rt => .ok (lookupRate rt code)

/-- `Service.compute_estimated_gdp`: `(population * random_factor) /
exchange_rate`, with the drawn `random_factor` made an explicit argument.
Python float division raises `ZeroDivisionError` when the divisor is zero,
so the embedding is fallible. -/
def compute_estimated_gdp (population : ℕ) (factor rate : ℚ) : Except Err ℚ :=
  if rate = 0 then .error .zeroDivision
  else .ok ((population * factor) / rate)

/-- The row staged by one loop iteration of `Service.create_country`
(the `insert(Country).values(...)` call). -/
def mkRow (c : CountryApiItem) (code : String) (rate gdp : ℚ) (now : ℕ) :
    CountryRow :=
  { name := c.name
    capital := c.capital
    region := c.region
    population := c.population
    currency_code := code
    exchange_rate := rate
    estimated_gdp := gdp
    flag_url := c.flag
    independent := c.independent
    last_refreshed_at := now }

/-- The `ON CONFLICT (name) DO UPDATE` upsert of `Service.create_country`:
if a row with the same name exists, every staged column of the existing
row(s) is overwritten in place; otherwise the row is inserted. -/
def upsertCountry (rows : List CountryRow) (r : CountryRow) : List CountryRow :=
  if rows.any (fun x => x.name = r.name) then
    rows.map (fun x => if x.name = r.name then r else x)
  else rows ++ [r]

/-- Staging state of one sync run: the staged `countries` table and the
index of the next random factor to draw. -/
def StageSt : Type := List CountryRow × ℕ

/-- One iteration of the inner `for currency in ...` loop of
`Service.create_country`: read `currency["code"]`, resolve the rate via
`fetch_rate` (skipping the pair when it resolves to `None`), compute the
estimated GDP and stage the upsert. -/
def stageCurrency (rf : FetchOutcome RatesTable) (factors : ℕ → ℚ) (now : ℕ)
    (c : CountryApiItem) (st : StageSt) (cur : CurrencyItem) :
    Except Err StageSt :=
  match cur.code with
  | none =>
      match fetch_rate rf none with
      | .error e => .error e
      | .ok _ => .ok st
  | some code =>
      match fetch_rate rf (some code) with
      | .error e => .error e
      | .ok none => .ok st
      | .ok (some rate) =>
          match compute_estimated_gdp c.population (factors st.2) rate with
          | .error e => .error e
          | .ok gdp => .ok (upsertCountry st.1 (mkRow c code rate gdp now), st.2 + 1)

/-- The inner `for currency in country_api_data.get("currencies")` loop. -/
def stageCurrencies (rf : FetchOutcome RatesTable) (factors : ℕ → ℚ) (now : ℕ)
    (c : CountryApiItem) : StageSt → List CurrencyItem → Except Err StageSt
  | st, [] => .ok st
  | st, cur :: rest =>
      match stageCurrency rf factors now c st cur with
      | .error e => .error e
      | .ok st' => stageCurrencies rf factors now c st' rest

/-- One iteration of the outer `for country_api_data in ...` loop: a country
whose `currencies` field is absent or empty is skipped
(`if not country_api_data.get("currencies"): continue`). -/
def stageCountry (rf : FetchOutcome RatesTable) (factors : ℕ → ℚ) (now : ℕ)
    (st : StageSt) (c : CountryApiItem) : Except Err StageSt :=
  match c.currencies with
  | none => .ok st
  | some curs => stageCurrencies rf factors now c st curs

/-- The outer loop of `Service.create_country` over the validated country
list. -/
def stageCountries (rf : FetchOutcome RatesTable) (factors : ℕ → ℚ) (now : ℕ) :
    StageSt → List CountryApiItem → Except Err StageSt
  | st, [] => .ok st
  | st, c :: rest =>
      match stageCountry rf factors now st c with
      | .error e => .error e
      | .ok st' => stageCountries rf factors now st' rest

/-- Everything `Service.create_country` stages before `commit()`: the
country fetch (`_fetch_country_data` wraps any failure in
`ServiceUnavailableError`), the `CountryApiResponse.model_validate` step
(whose failure is raised raw), the two nested loops of upserts, and the
`ON CONFLICT (name) DO UPDATE` upsert of the `"api_fetch"` status row. -/
def stageAll (s : Store) (cf : FetchOutcome (List CountryApiItem))
    (rf : FetchOutcome RatesTable) (factors : ℕ → ℚ) (now : ℕ) :
    Except Err Store :=
  match cf with
  | .transportError => .error .upstreamUnavailable
  | .invalidPayload => .error .validationError
  | .ok cs =>
      match stageCountries rf factors now (s.countries, 0) cs with
      | .error e => .error e
      | .ok st => .ok { countries := st.1, status_last := some now }

/-- `Service.create_country` as observed by its caller: the `Except` result
together with the store visible afterwards.  Any exception before
`commit()` rolls the whole staged batch back (the `except` block) and
re-raises, leaving the store unchanged; after a successful commit the
status snapshot is read back and the summary image rendered
(`imageOk = false` models `generate_image` raising), which re-raises but
cannot undo the committed writes. -/
def create_country (s : Store) (cf : FetchOutcome (List CountryApiItem))
    (rf : FetchOutcome RatesTable) (factors : ℕ → ℚ) (now : ℕ)
    (imageOk : Bool) : Except Err Unit × Store :=
  match stageAll s cf rf factors now with
  | .error e => (.error e, s)
  | .ok s' => if imageOk then (.ok (), s') else (.error .imageError, s')

/-- The payload returned by `Service.status`. -/
structure StatusView where
  total_countries : ℕ
  last_refreshed_at : Option ℕ
  top_5 : List ℚ
deriving DecidableEq, Repr

/-- `Service.status`: `count(Country.name)` over all rows, the
`last_refreshed_at` of the `"api_fetch"` status row (`None` when absent),
and `select(Country.estimated_gdp).order_by(desc).limit(5)` — the top five
`estimated_gdp` column values, not full rows. -/
def Service.status (s : Store) : StatusView :=
  { total_countries := (s.countries.map (fun c => c.name)).length
    last_refreshed_at := s.status_last
    top_5 := ((s.countries.map (fun c => c.estimated_gdp)).mergeSort
        (fun a b => decide (b ≤ a))).take 5 }

/-- Modelled from the spec: "the top 5 rows by estimated_gdp descending" —
the full `Country` rows, sorted by `estimated_gdp` descending, first five.
Used only to compare the spec's wording with what `Service.status`
actually returns. -/
def top5RowsSpec (s : Store) : List CountryRow :=
  (s.countries.mergeSort
    (fun a b => decide (b.estimated_gdp ≤ a.estimated_gdp))).take 5

/-- Lower-casing as used by both `sa.func.lower` (in the query) and Python's
`str.lower()` (on the argument): character-wise lower-casing of the string. -/
def lowerStr (s : String) : String := ⟨s.data.map Char.toLower⟩

/-- `Service.fetch_by_name`: `select(Country).where(lower(name) ==
lower(query))` followed by `scalar_one_or_none()` — no match raises
`NotFoundError`, more than one match raises `MultipleResultsFound`. -/
def fetch_by_name (s : Store) (name : String) : Except Err CountryRow :=
  match s.countries.filter (fun c => lowerStr c.name = lowerStr name) with
  | [] => .error .notFound
  | [c] => .ok c
  | _ :: _ :: _ => .error .multipleResults

/-- `Service.delete_country`: resolve via `fetch_by_name` (propagating its
errors with the store untouched), delete the resolved row, commit. -/
def delete_country (s : Store) (name : String) : Except Err Unit × Store :=
  match fetch_by_name s name with
  | .error e => (.error e, s)
  | .ok _ =>
      (.ok (), { s with
        countries := s.countries.filter (fun c => ¬ lowerStr c.name = lowerStr name) })

/-! ### Core view of rows

For the idempotence and row-count arguments we project each staged row to
its "stable" columns: everything except `estimated_gdp` (recomputed from a
fresh random factor on every run) and `last_refreshed_at` (refreshed to
`now` on every run). -/

/-- The stable columns of a `Country` row. -/
structure CoreRow where
  name : String
  capital : Option String
  region : Option String
  population : ℕ
  currency_code : String
  exchange_rate : ℚ
  flag_url : String
  independent : Bool
deriving DecidableEq, Repr

/-- Project a row to its stable columns. -/
def coreOf (r : CountryRow) : CoreRow :=
  { name := r.name
    capital := r.capital
    region := r.region
    population := r.population
    currency_code := r.currency_code
    exchange_rate := r.exchange_rate
    flag_url := r.flag_url
    independent := r.independent }

/-- The stable columns staged by one processed (country, currency) pair. -/
def coreRow (c : CountryApiItem) (code : String) (rate : ℚ) : CoreRow :=
  { name := c.name
    capital := c.capital
    region := c.region
    population := c.population
    currency_code := code
    exchange_rate := rate
    flag_url := c.flag
    independent := c.independent }

/-- The upsert, on stable columns only. -/
def coreUpsert (rows : List CoreRow) (r : CoreRow) : List CoreRow :=
  if rows.any (fun x => x.name = r.name) then
    rows.map (fun x => if x.name = r.name then r else x)
  else rows ++ [r]

lemma coreOf_mkRow (c : CountryApiItem) (code : String) (rate gdp : ℚ) (now : ℕ) :
    coreOf (mkRow c code rate gdp now) = coreRow c code rate := rfl

lemma any_map_pred {α β : Type} (f : α → β) (p : β → Bool) :
    ∀ l : List α, (l.map f).any p = l.any (fun a => p (f a))
  | [] => rfl
  | a :: l => by simp [List.any_cons, any_map_pred f p l]

lemma map_coreOf_upsert (rows : List CountryRow) (r : CountryRow) :
    (upsertCountry rows r).map coreOf = coreUpsert (rows.map coreOf) (coreOf r) := by
  unfold upsertCountry coreUpsert
  have hany : ((rows.map coreOf).any (fun x => x.name = (coreOf r).name)) =
      (rows.any (fun x => x.name = r.name)) := by
    rw [any_map_pred]
    rfl
  rw [hany]
  by_cases h : rows.any (fun x => x.name = r.name)
  · rw [if_pos h, if_pos h, List.map_map, List.map_map]
    refine List.map_congr_left (fun x _ => ?_)
    by_cases hx : x.name = r.name <;> simp [coreOf, Function.comp, hx]
  · rw [if_neg h, if_neg h, List.map_append]
    rfl

/-- Drop the factor index and project the staged rows of a staging outcome. -/
def eraseSt : Except Err StageSt → Except Err (List CoreRow)
  | .error e => .error e
  | .ok st => .ok (st.1.map coreOf)

/-- The stable rows contributed by the currency loop of one country, given
the (successfully fetched) rates table: skipped pairs contribute nothing, a
zero rate aborts with `ZeroDivisionError`. -/
def pairActs (rt : RatesTable) (c : CountryApiItem) :
    List CurrencyItem → Except Err (List CoreRow)
  | [] => .ok []
  | cur :: rest =>
      match cur.code with
      | none => pairActs rt c rest
      | some code =>
          match rt.lookup code with
          | none => pairActs rt c rest
          | some rate =>
              if rate = 0 then .error .zeroDivision
              else
                match pairActs rt c rest with
                | .error e => .error e
                | .ok l => .ok (coreRow c code rate :: l)

/-- The stable rows staged by a whole sync run, in processing order. -/
def actsOf (rt : RatesTable) : List CountryApiItem → Except Err (List CoreRow)
  | [] => .ok []
  | c :: rest =>
      match c.currencies with
      | none => actsOf rt rest
      | some curs =>
          match pairActs rt c curs with
          | .error e => .error e
          | .ok l =>
              match actsOf rt rest with
              | .error e => .error e
              | .ok l' => .ok (l ++ l')

lemma stage_core_curs (rt : RatesTable) (f : ℕ → ℚ) (now : ℕ) (c : CountryApiItem) :
    ∀ (curs : List CurrencyItem) (rows : List CountryRow) (i : ℕ),
      eraseSt (stageCurrencies (.ok rt) f now c (rows, i) curs) =
        (pairActs rt c curs).map (fun acts => acts.foldl coreUpsert (rows.map coreOf)) := by
  intro curs
  induction curs with
  | nil => intro rows i; rfl
  | cons cur rest ih =>
      intro rows i
      cases hcode : cur.code with
      | none =>
          simp only [stageCurrencies, stageCurrency, hcode, fetch_rate, pairActs]
          exact ih rows i
      | some code =>
          cases hl : rt.lookup code with
          | none =>
              simp only [stageCurrencies, stageCurrency, hcode, fetch_rate, lookupRate, hl,
                pairActs]
              exact ih rows i
          | some rate =>
              by_cases hz : rate = 0
              · simp only [stageCurrencies, stageCurrency, hcode, fetch_rate, lookupRate, hl,
                  compute_estimated_gdp, if_pos hz, pairActs, eraseSt, Except.map]
              · simp only [stageCurrencies, stageCurrency, hcode, fetch_rate, lookupRate, hl,
                  compute_estimated_gdp, if_neg hz, pairActs]
                rw [ih]
                cases hpa : pairActs rt c rest with
                | error e => rfl
                | ok l =>
                    simp only [Except.map, List.foldl_cons, map_coreOf_upsert, coreOf_mkRow]

lemma stage_core_countries (rt : RatesTable) (f : ℕ → ℚ) (now : ℕ) :
    ∀ (cs : List CountryApiItem) (rows : List CountryRow) (i : ℕ),
      eraseSt (stageCountries (.ok rt) f now (rows, i) cs) =
        (actsOf rt cs).map (fun acts => acts.foldl coreUpsert (rows.map coreOf)) := by
  intro cs
  induction cs with
  | nil => intro rows i; rfl
  | cons c rest ih =>
      intro rows i
      cases hc : c.currencies with
      | none =>
          simp only [stageCountries, stageCountry, hc, actsOf]
          exact ih rows i
      | some curs =>
          simp only [stageCountries, stageCountry, hc, actsOf]
          have hcur := stage_core_curs rt f now c curs rows i
          cases hst : stageCurrencies (.ok rt) f now c (rows, i) curs with
          | error e =>
              rw [hst] at hcur
              cases hpa : pairActs rt c curs with
              | error e' =>
                  rw [hpa] at hcur
                  simp only [eraseSt, Except.map] at hcur
                  cases hcur
                  rfl
              | ok l => rw [hpa] at hcur; simp [eraseSt, Except.map] at hcur
          | ok st' =>
              rw [hst] at hcur
              cases hpa : pairActs rt c curs with
              | error e' => rw [hpa] at hcur; simp [eraseSt, Except.map] at hcur
              | ok l =>
                  rw [hpa] at hcur
                  simp only [eraseSt, Except.map, Except.ok.injEq] at hcur
                  have : eraseSt (stageCountries (.ok rt) f now st' rest) =
                      (actsOf rt rest).map
                        (fun acts => acts.foldl coreUpsert (st'.1.map coreOf)) := by
                    have := ih st'.1 st'.2
                    simpa using this
                  rw [this, hcur]
                  cases hao : actsOf rt rest with
                  | error e' => rfl
                  | ok l' => simp only [Except.map, List.foldl_append]

/-! ### Idempotence of the upsert fold on stable columns -/

/-- Does the staged table contain a row with the given name. -/
def hasName (C : List CoreRow) (n : String) : Bool :=
  C.any (fun x => x.name = n)

/-- The last staged value for a given name, if any. -/
def lastUpd : List CoreRow → String → Option CoreRow
  | [], _ => none
  | a :: L, n =>
      match lastUpd L n with
      | some r => some r
      | none => if a.name = n then some a else none

lemma hasName_coreUpsert (C : List CoreRow) (a : CoreRow) (n : String) :
    hasName (coreUpsert C a) n = (hasName C n || decide (a.name = n)) := by
  unfold coreUpsert hasName
  by_cases h : C.any (fun x => x.name = a.name)
  · rw [if_pos h, any_map_pred]
    have hpt : (C.any fun x => decide ((if x.name = a.name then a else x).name = n)) =
        C.any (fun x => x.name = n) := by
      refine congrArg C.any (funext fun x => ?_)
      by_cases hx : x.name = a.name <;> simp [hx]
    rw [hpt]
    by_cases hn : a.name = n
    · subst hn
      simp [h]
    · simp [hn]
  · rw [if_neg h, List.any_append]
    simp [List.any_cons]

lemma hasName_foldl_mono (L : List CoreRow) :
    ∀ (C : List CoreRow) (n : String), hasName C n = true →
      hasName (L.foldl coreUpsert C) n = true := by
  induction L with
  | nil => intro C n h; exact h
  | cons a L ih =>
      intro C n h
      simp only [List.foldl_cons]
      exact ih _ n (by rw [hasName_coreUpsert, h, Bool.true_or])

lemma hasName_foldl_mem (L : List CoreRow) :
    ∀ (C : List CoreRow) (a : CoreRow), a ∈ L →
      hasName (L.foldl coreUpsert C) a.name = true := by
  induction L with
  | nil => intro C a ha; cases ha
  | cons b L ih =>
      intro C a ha
      simp only [List.foldl_cons]
      rcases List.mem_cons.mp ha with rfl | ha'
      · exact hasName_foldl_mono L _ _ (by rw [hasName_coreUpsert]; simp)
      · exact ih _ a ha'

lemma lastUpd_eq_none (L : List CoreRow) (n : String) (h : lastUpd L n = none) :
    ∀ b ∈ L, b.name ≠ n := by
  induction L with
  | nil => intro b hb; cases hb
  | cons a L ih =>
      intro b hb
      unfold lastUpd at h
      cases hL : lastUpd L n with
      | some r => rw [hL] at h; cases h
      | none =>
          rw [hL] at h
          by_cases ha : a.name = n
          · rw [if_pos ha] at h; cases h
          · rcases List.mem_cons.mp hb with rfl | hb'
            · exact ha
            · exact ih hL b hb'

lemma mem_foldl_untouched (L : List CoreRow) :
    ∀ (C : List CoreRow) (x : CoreRow), x ∈ L.foldl coreUpsert C →
      (∀ b ∈ L, b.name ≠ x.name) → x ∈ C := by
  induction L with
  | nil => intro C x hx _; exact hx
  | cons a L ih =>
      intro C x hx hnames
      have hx' : x ∈ coreUpsert C a :=
        ih _ x (by simpa using hx) (fun b hb => hnames b (List.mem_cons_of_mem a hb))
      have hne : a.name ≠ x.name := hnames a (List.mem_cons_self a L)
      unfold coreUpsert at hx'
      by_cases h : C.any (fun y => y.name = a.name)
      · rw [if_pos h] at hx'
        rcases List.mem_map.mp hx' with ⟨y, hy, hyx⟩
        by_cases hyn : y.name = a.name
        · rw [if_pos hyn] at hyx; exact absurd (hyx ▸ rfl) hne
        · rw [if_neg hyn] at hyx; exact hyx ▸ hy
      · rw [if_neg h] at hx'
        rcases List.mem_append.mp hx' with hc | hs
        · exact hc
        · rcases List.mem_singleton.mp hs with rfl
          exact absurd rfl hne

lemma mem_coreUpsert_same_name (C : List CoreRow) (a x : CoreRow)
    (hx : x ∈ coreUpsert C a) (hn : x.name = a.name) : x = a := by
  unfold coreUpsert at hx
  by_cases h : C.any (fun y => y.name = a.name)
  · rw [if_pos h] at hx
    rcases List.mem_map.mp hx with ⟨y, _, hyx⟩
    by_cases hyn : y.name = a.name
    · rw [if_pos hyn] at hyx; exact hyx.symm
    · rw [if_neg hyn] at hyx; exact absurd (hyx ▸ hn) hyn
  · rw [if_neg h] at hx
    rcases List.mem_append.mp hx with hc | hs
    · exfalso
      have : C.any (fun y => y.name = a.name) = true :=
        List.any_eq_true.mpr ⟨x, hc, by simpa using hn⟩
      exact h this
    · exact List.mem_singleton.mp hs

lemma foldl_coreUpsert_all_present (L : List CoreRow) :
    ∀ (C : List CoreRow), (∀ a ∈ L, hasName C a.name = true) →
      L.foldl coreUpsert C = C.map (fun x => (lastUpd L x.name).getD x) := by
  induction L with
  | nil =>
      intro C _
      simp [lastUpd]
  | cons a L ih =>
      intro C h
      have ha : hasName C a.name = true := h a (List.mem_cons_self a L)
      have hstep : coreUpsert C a = C.map (fun x => if x.name = a.name then a else x) := by
        unfold coreUpsert
        rw [if_pos (by exact ha)]
      have hrest : ∀ b ∈ L, hasName (coreUpsert C a) b.name = true := by
        intro b hb
        rw [hasName_coreUpsert, h b (List.mem_cons_of_mem a hb), Bool.true_or]
      simp only [List.foldl_cons]
      rw [ih _ hrest, hstep, List.map_map]
      refine List.map_congr_left (fun x _ => ?_)
      simp only [Function.comp]
      have hcons : ∀ m : String, lastUpd (a :: L) m =
          match lastUpd L m with
          | some r => some r
          | none => if a.name = m then some a else none := fun m => rfl
      by_cases hx : x.name = a.name
      · rw [if_pos hx, hx, hcons]
        cases hL : lastUpd L a.name with
        | some r => simp
        | none => simp
      · rw [if_neg hx, hcons]
        cases hL : lastUpd L x.name with
        | some r => simp
        | none =>
            rw [if_neg (fun h : a.name = x.name => hx h.symm)]

lemma lastUpd_getD_of_mem_foldl (L : List CoreRow) :
    ∀ (C : List CoreRow) (x : CoreRow), x ∈ L.foldl coreUpsert C →
      (lastUpd L x.name).getD x = x := by
  induction L with
  | nil => intro C x _; rfl
  | cons a L ih =>
      intro C x hx
      show (match lastUpd L x.name with
        | some r => some r
        | none => if a.name = x.name then some a else none).getD x = x
      cases hL : lastUpd L x.name with
      | some r =>
          have := ih _ x (by simpa using hx)
          rw [hL] at this
          simpa using this
      | none =>
          by_cases ha : a.name = x.name
          · have hxL : ∀ b ∈ L, b.name ≠ x.name := lastUpd_eq_none L x.name hL
            have hxup : x ∈ coreUpsert C a :=
              mem_foldl_untouched L _ x (by simpa using hx) hxL
            have : x = a := mem_coreUpsert_same_name C a x hxup ha.symm
            simp [ha, this]
          · simp [ha]

lemma foldl_coreUpsert_idem (C : List CoreRow) (L : List CoreRow) :
    L.foldl coreUpsert (L.foldl coreUpsert C) = L.foldl coreUpsert C := by
  set D := L.foldl coreUpsert C with hD
  rw [foldl_coreUpsert_all_present L D (fun a ha => hasName_foldl_mem L C a ha)]
  have : ∀ x ∈ D, (lastUpd L x.name).getD x = x := by
    intro x hx
    exact lastUpd_getD_of_mem_foldl L C x (hD ▸ hx)
  calc D.map (fun x => (lastUpd L x.name).getD x) = D.map id :=
        List.map_congr_left (fun x hx => this x hx)
    _ = D := List.map_id D

/-! ### Names and row counts -/

/-- Insertion of a name into the list of staged names: an upsert leaves the
name list unchanged when the name is present and appends it otherwise. -/
def insertName (ns : List String) (n : String) : List String :=
  if n ∈ ns then ns else ns ++ [n]

lemma coreUpsert_names (C : List CoreRow) (a : CoreRow) :
    (coreUpsert C a).map (fun x => x.name) =
      insertName (C.map (fun x => x.name)) a.name := by
  unfold coreUpsert insertName
  have hmem : (C.any (fun x => x.name = a.name)) = true ↔
      a.name ∈ C.map (fun x => x.name) := by
    rw [List.any_eq_true]
    simp [List.mem_map, eq_comm]
  by_cases h : a.name ∈ C.map (fun x => x.name)
  · rw [if_pos (hmem.mpr h), if_pos h, List.map_map]
    refine List.map_congr_left (fun x _ => ?_)
    by_cases hx : x.name = a.name <;> simp [Function.comp, hx]
  · rw [if_neg (fun hh => h (hmem.mp hh)), if_neg h, List.map_append]
    rfl

lemma foldl_coreUpsert_names (L : List CoreRow) :
    ∀ C : List CoreRow,
      (L.foldl coreUpsert C).map (fun x => x.name) =
        (L.map (fun x => x.name)).foldl insertName (C.map (fun x => x.name)) := by
  induction L with
  | nil => intro C; rfl
  | cons a L ih =>
      intro C
      simp only [List.foldl_cons, List.map_cons]
      rw [ih, coreUpsert_names]

lemma insertName_nodup (ns : List String) (n : String) (h : ns.Nodup) :
    (insertName ns n).Nodup := by
  unfold insertName
  by_cases hm : n ∈ ns
  · rwa [if_pos hm]
  · rw [if_neg hm, ← List.concat_eq_append]
    exact List.Nodup.concat hm h

lemma foldl_insertName_nodup (l : List String) :
    ∀ ns : List String, ns.Nodup → (l.foldl insertName ns).Nodup := by
  induction l with
  | nil => intro ns h; exact h
  | cons a l ih => intro ns h; exact ih _ (insertName_nodup ns a h)

lemma insertName_toFinset (ns : List String) (n : String) :
    (insertName ns n).toFinset = insert n ns.toFinset := by
  unfold insertName
  by_cases hm : n ∈ ns
  · rw [if_pos hm, Finset.insert_eq_self.mpr (List.mem_toFinset.mpr hm)]
  · rw [if_neg hm, List.toFinset_append]
    simp only [List.toFinset_cons, List.toFinset_nil, insert_emptyc_eq]
    rw [Finset.union_comm, ← Finset.insert_eq]

lemma foldl_insertName_toFinset (l : List String) :
    ∀ ns : List String, (l.foldl insertName ns).toFinset = ns.toFinset ∪ l.toFinset := by
  induction l with
  | nil => intro ns; simp
  | cons a l ih =>
      intro ns
      simp only [List.foldl_cons, List.toFinset_cons]
      rw [ih, insertName_toFinset, Finset.insert_union, Finset.union_insert]

lemma foldl_insertName_length_nil (l : List String) :
    (l.foldl insertName []).length = l.dedup.length := by
  have hnd : (l.foldl insertName []).Nodup := foldl_insertName_nodup l [] List.nodup_nil
  have hfs : (l.foldl insertName []).toFinset = l.toFinset := by
    rw [foldl_insertName_toFinset]
    simp
  calc (l.foldl insertName []).length = (l.foldl insertName []).toFinset.card :=
        (List.toFinset_card_of_nodup hnd).symm
    _ = l.toFinset.card := by rw [hfs]
    _ = l.dedup.length := List.card_toFinset l

/-- Has this country at least one currency whose rate resolves in the
table (the pairs the sync does not skip). -/
def hasResolvable (rt : RatesTable) (c : CountryApiItem) : Bool :=
  match c.currencies with
  | none => false
  | some curs => curs.any (fun cur => (lookupRate rt cur.code).isSome)

lemma pairActs_names (rt : RatesTable) (c : CountryApiItem) :
    ∀ (curs : List CurrencyItem) (l : List CoreRow), pairActs rt c curs = .ok l →
      (∀ x ∈ l, x.name = c.name) ∧
        (l = [] ↔ curs.any (fun cur => (lookupRate rt cur.code).isSome) = false) := by
  intro curs
  induction curs with
  | nil =>
      intro l hl
      cases hl
      simp
  | cons cur rest ih =>
      intro l hl
      cases hcode : cur.code with
      | none =>
          simp only [pairActs, hcode] at hl
          have := ih l hl
          refine ⟨this.1, ?_⟩
          rw [this.2]
          simp [List.any_cons, lookupRate, hcode]
      | some code =>
          cases hlk : rt.lookup code with
          | none =>
              simp only [pairActs, hcode, hlk] at hl
              have := ih l hl
              refine ⟨this.1, ?_⟩
              rw [this.2]
              simp [List.any_cons, lookupRate, hcode, hlk]
          | some rate =>
              simp only [pairActs, hcode, hlk] at hl
              by_cases hz : rate = 0
              · rw [if_pos hz] at hl; cases hl
              · rw [if_neg hz] at hl
                cases hpa : pairActs rt c rest with
                | error e => rw [hpa] at hl; cases hl
                | ok l' =>
                    rw [hpa] at hl
                    cases hl
                    have := ih l' hpa
                    constructor
                    · intro x hx
                      rcases List.mem_cons.mp hx with rfl | hx'
                      · rfl
                      · exact this.1 x hx'
                    · simp [List.any_cons, lookupRate, hcode, hlk]

lemma actsOf_names_mem (rt : RatesTable) :
    ∀ (cs : List CountryApiItem) (acts : List CoreRow), actsOf rt cs = .ok acts →
      ∀ n : String, (n ∈ acts.map (fun x => x.name) ↔
        ∃ c ∈ cs, hasResolvable rt c = true ∧ c.name = n) := by
  intro cs
  induction cs with
  | nil =>
      intro acts hacts n
      cases hacts
      simp
  | cons c rest ih =>
      intro acts hacts n
      cases hc : c.currencies with
      | none =>
          simp only [actsOf, hc] at hacts
          rw [ih acts hacts n]
          constructor
          · rintro ⟨c', hc', hres, hname⟩
            exact ⟨c', List.mem_cons_of_mem c hc', hres, hname⟩
          · rintro ⟨c', hc', hres, hname⟩
            rcases List.mem_cons.mp hc' with rfl | hc''
            · rw [hasResolvable, hc] at hres; cases hres
            · exact ⟨c', hc'', hres, hname⟩
      | some curs =>
          cases hpa : pairActs rt c curs with
          | error e =>
              simp only [actsOf, hc, hpa] at hacts
              cases hacts
          | ok l =>
              cases hao : actsOf rt rest with
              | error e =>
                  simp only [actsOf, hc, hpa, hao] at hacts
                  cases hacts
              | ok l' =>
                  simp only [actsOf, hc, hpa, hao, Except.ok.injEq] at hacts
                  subst hacts
                  have hp := pairActs_names rt c curs l hpa
                  have hres : hasResolvable rt c = true ↔ l ≠ [] := by
                    simp only [hasResolvable, hc]
                    constructor
                    · intro hany hnil
                      rw [hp.2.mp hnil] at hany
                      cases hany
                    · intro hne
                      by_contra hany
                      exact hne (hp.2.mpr (Bool.eq_false_iff.mpr hany))
                  rw [List.map_append, List.mem_append, ih l' hao n]
                  constructor
                  · rintro (hn | ⟨c', hc', hres', hname⟩)
                    · rcases List.mem_map.mp hn with ⟨x, hx, hxn⟩
                      refine ⟨c, List.mem_cons_self c rest, ?_, (hp.1 x hx) ▸ hxn⟩
                      exact hres.mpr (fun h => by simp [h] at hx)
                    · exact ⟨c', List.mem_cons_of_mem c hc', hres', hname⟩
                  · rintro ⟨c', hc', hres', hname⟩
                    rcases List.mem_cons.mp hc' with rfl | hc''
                    · left
                      rcases List.exists_mem_of_ne_nil l (hres.mp hres') with ⟨x, hx⟩
                      exact List.mem_map.mpr ⟨x, hx, (hp.1 x hx) ▸ hname⟩
                    · right
                      exact ⟨c', hc'', hres', hname⟩

/-! ### Bridge lemmas between the pipeline and the core fold -/

lemma names_core (rows : List CountryRow) :
    (rows.map coreOf).map (fun x => x.name) = rows.map (fun r => r.name) := by
  rw [List.map_map]
  rfl

lemma create_country_ok_elim (s s1 : Store) (cf : FetchOutcome (List CountryApiItem))
    (rf : FetchOutcome RatesTable) (f : ℕ → ℚ) (now : ℕ)
    (h : create_country s cf rf f now true = (.ok (), s1)) :
    stageAll s cf rf f now = .ok s1 := by
  unfold create_country at h
  cases hst : stageAll s cf rf f now with
  | error e => rw [hst] at h; simp at h
  | ok s' =>
      rw [hst] at h
      simp only [if_true, Prod.mk.injEq] at h
      rw [h.2]

lemma stageAll_ok_elim (s s1 : Store) (cs : List CountryApiItem) (rt : RatesTable)
    (f : ℕ → ℚ) (now : ℕ)
    (h : stageAll s (.ok cs) (.ok rt) f now = .ok s1) :
    ∃ acts, actsOf rt cs = .ok acts ∧
      s1.countries.map coreOf = acts.foldl coreUpsert (s.countries.map coreOf) ∧
      s1.status_last = some now := by
  simp only [stageAll] at h
  cases hst : stageCountries (.ok rt) f now (s.countries, 0) cs with
  | error e => rw [hst] at h; cases h
  | ok st =>
      rw [hst] at h
      simp only [Except.ok.injEq] at h
      have hcore := stage_core_countries rt f now cs s.countries 0
      rw [hst] at hcore
      cases hacts : actsOf rt cs with
      | error e => rw [hacts] at hcore; simp [eraseSt, Except.map] at hcore
      | ok acts =>
          rw [hacts] at hcore
          simp only [eraseSt, Except.map, Except.ok.injEq] at hcore
          exact ⟨acts, rfl, by rw [← h]; exact hcore, by rw [← h]⟩

lemma stageAll_ok_intro (s : Store) (cs : List CountryApiItem) (rt : RatesTable)
    (f : ℕ → ℚ) (now : ℕ) (acts : List CoreRow)
    (h : actsOf rt cs = .ok acts) :
    ∃ s1, stageAll s (.ok cs) (.ok rt) f now = .ok s1 ∧
      s1.countries.map coreOf = acts.foldl coreUpsert (s.countries.map coreOf) ∧
      s1.status_last = some now := by
  have hcore := stage_core_countries rt f now cs s.countries 0
  rw [h] at hcore
  cases hst : stageCountries (.ok rt) f now (s.countries, 0) cs with
  | error e => rw [hst] at hcore; simp [eraseSt, Except.map] at hcore
  | ok st =>
      rw [hst] at hcore
      simp only [eraseSt, Except.map, Except.ok.injEq] at hcore
      refine ⟨{ countries := st.1, status_last := some now }, ?_, hcore, rfl⟩
      simp only [stageAll]
      rw [hst]

/-! ### Concrete inputs used by counterexamples and witnesses -/

/-- A one-country upstream payload: country "A", population 5, one currency
with code "USD". -/
def exCountryA : CountryApiItem :=
  { name := "A", population := 5, capital := none, region := none,
    currencies := some [{ code := some "USD", cname := none, symbol := none }],
    flag := "f", independent := true }

/-- A second country "B" with currency "EUR". -/
def exCountryB : CountryApiItem :=
  { name := "B", population := 7, capital := some "b", region := some "R",
    currencies := some [{ code := some "EUR", cname := none, symbol := none }],
    flag := "g", independent := false }

/-- A duplicate payload for country "A" (same name, different population),
as the upstream list may repeat a name. -/
def exCountryA2 : CountryApiItem :=
  { name := "A", population := 9, capital := none, region := none,
    currencies := some [{ code := some "USD", cname := none, symbol := none }],
    flag := "f2", independent := true }

def exCs : List CountryApiItem := [exCountryA]

def exCs2 : List CountryApiItem := [exCountryA, exCountryB, exCountryA2]

def exRt : RatesTable := [("USD", 2)]

def exRt2 : RatesTable := [("USD", 2), ("EUR", 4)]

def exRtZero : RatesTable := [("USD", 0)]

def emptyStore : Store := { countries := [], status_last := none }

/-! ### C1 — sync idempotence -/

/-- C1, counterexample.  The claim says that re-running the sync with
identical upstream responses changes no persisted field except
`last_refreshed_at`.  On the code, `compute_estimated_gdp` draws a fresh
`random.uniform(1000, 2000)` factor on every run, so the second run
overwrites `estimated_gdp` with a different value: with upstream country
"A" (population 5), rate table {USD: 2}, and drawn factors 1000 (first
run) and 1500 (second run), the single persisted row has
`estimated_gdp = 2500` after the first run but `3750` after the second. -/
theorem C1_counterexample :
    ((create_country emptyStore (.ok exCs) (.ok exRt) (fun _ => 1000) 1
        true).2.countries.map (fun r => r.estimated_gdp) = [2500]) ∧
    ((create_country
        ((create_country emptyStore (.ok exCs) (.ok exRt) (fun _ => 1000) 1 true).2)
        (.ok exCs) (.ok exRt) (fun _ => 1500) 2 true).2.countries.map
          (fun r => r.estimated_gdp) = [3750]) ∧
    (2500 : ℚ) ≠ 3750 := by
  refine ⟨?_, ?_, by norm_num⟩
  · norm_num [create_country, stageAll, stageCountries, stageCountry, stageCurrencies,
      stageCurrency, fetch_rate, lookupRate, compute_estimated_gdp, upsertCountry, mkRow,
      exCs, exRt, exCountryA, emptyStore, List.lookup]
  · norm_num [create_country, stageAll, stageCountries, stageCountry, stageCurrencies,
      stageCurrency, fetch_rate, lookupRate, compute_estimated_gdp, upsertCountry, mkRow,
      exCs, exRt, exCountryA, emptyStore, List.lookup]

/-- C1 (amended): running the sync twice with the same upstream country
list and rates table succeeds again and leaves the store in the same
observable state except for `last_refreshed_at` and `estimated_gdp`: the
row count is unchanged and every other persisted field of every row is
unchanged (the second run re-draws the random GDP factor, so
`estimated_gdp` is not preserved — see the counterexample). -/
theorem C1_sync_idempotent_core (s s1 : Store) (cs : List CountryApiItem)
    (rt : RatesTable) (f1 f2 : ℕ → ℚ) (n1 n2 : ℕ)
    (h1 : create_country s (.ok cs) (.ok rt) f1 n1 true = (.ok (), s1)) :
    ∃ s2, create_country s1 (.ok cs) (.ok rt) f2 n2 true = (.ok (), s2) ∧
      s2.countries.length = s1.countries.length ∧
      s2.countries.map coreOf = s1.countries.map coreOf ∧
      s2.status_last = some n2 := by
  have hst1 := create_country_ok_elim _ _ _ _ _ _ h1
  rcases stageAll_ok_elim _ _ _ _ _ _ hst1 with ⟨acts, hacts, hcore1, _⟩
  rcases stageAll_ok_intro s1 cs rt f2 n2 acts hacts with ⟨s2, hst2, hcore2, hstat2⟩
  have hcc : create_country s1 (.ok cs) (.ok rt) f2 n2 true = (.ok (), s2) := by
    simp only [create_country, hst2, if_true]
  have hmap : s2.countries.map coreOf = s1.countries.map coreOf := by
    rw [hcore2, hcore1, foldl_coreUpsert_idem]
  refine ⟨s2, hcc, ?_, hmap, hstat2⟩
  have hlen := congrArg List.length hmap
  simpa using hlen

/-- C1 witness: the amended idempotence theorem applied to the concrete
one-country upstream input of the counterexample. -/
theorem C1_witness :
    ∃ s2, create_country
        ((create_country emptyStore (.ok exCs) (.ok exRt) (fun _ => 1000) 1 true).2)
        (.ok exCs) (.ok exRt) (fun _ => 1500) 2 true = (.ok (), s2) ∧
      s2.countries.length =
        ((create_country emptyStore (.ok exCs) (.ok exRt) (fun _ => 1000) 1
          true).2).countries.length ∧
      s2.countries.map coreOf =
        ((create_country emptyStore (.ok exCs) (.ok exRt) (fun _ => 1000) 1
          true).2).countries.map coreOf ∧
      s2.status_last = some 2 := by
  apply C1_sync_idempotent_core emptyStore _ exCs exRt (fun _ => 1000) (fun _ => 1500) 1 2
  have : (create_country emptyStore (.ok exCs) (.ok exRt) (fun _ => 1000) 1 true).1 =
      .ok () := by
    norm_num [create_country, stageAll, stageCountries, stageCountry, stageCurrencies,
      stageCurrency, fetch_rate, lookupRate, compute_estimated_gdp, upsertCountry, mkRow,
      exCs, exRt, exCountryA, emptyStore, List.lookup]
  calc create_country emptyStore (.ok exCs) (.ok exRt) (fun _ => 1000) 1 true
      = ((create_country emptyStore (.ok exCs) (.ok exRt) (fun _ => 1000) 1 true).1,
         (create_country emptyStore (.ok exCs) (.ok exRt) (fun _ => 1000) 1 true).2) :=
        rfl
    _ = (.ok (), (create_country emptyStore (.ok exCs) (.ok exRt) (fun _ => 1000) 1
          true).2) := by rw [this]

/-! ### C2 — country name as the upsert key -/

/-- C2: the country name is the unique upsert key.  (i) A successful sync
preserves the invariant that no two rows share a name; (ii) from an empty
store, the row count after a successful sync equals the number of upstream
countries, deduplicated by name, that had at least one currency with a
resolvable rate; (iii) each staged upsert either appends a new row (no row
with that name) or overwrites in place, keeping the row count and making
the staged row present. -/
theorem C2_name_upsert_key (s s1 : Store) (cs : List CountryApiItem)
    (rt : RatesTable) (f : ℕ → ℚ) (now : ℕ)
    (h : create_country s (.ok cs) (.ok rt) f now true = (.ok (), s1)) :
    ((s.countries.map (fun r => r.name)).Nodup →
      (s1.countries.map (fun r => r.name)).Nodup) ∧
    (s.countries = [] →
      s1.countries.length =
        ((cs.filter (fun c => hasResolvable rt c)).map (fun c => c.name)).dedup.length) ∧
    (∀ (rows : List CountryRow) (r : CountryRow),
      (∀ x ∈ rows, x.name ≠ r.name) → upsertCountry rows r = rows ++ [r]) ∧
    (∀ (rows : List CountryRow) (r x : CountryRow),
      x ∈ rows → x.name = r.name →
        (upsertCountry rows r).length = rows.length ∧ r ∈ upsertCountry rows r) := by
  have hst := create_country_ok_elim _ _ _ _ _ _ h
  rcases stageAll_ok_elim _ _ _ _ _ _ hst with ⟨acts, hacts, hcore, _⟩
  have hnames : s1.countries.map (fun r => r.name) =
      (acts.map (fun x => x.name)).foldl insertName (s.countries.map (fun r => r.name)) := by
    rw [← names_core s1.countries, hcore, foldl_coreUpsert_names, names_core]
  refine ⟨?_, ?_, ?_, ?_⟩
  · intro hnd
    rw [hnames]
    exact foldl_insertName_nodup _ _ hnd
  · intro hempty
    have hlen : s1.countries.length = (s1.countries.map (fun r => r.name)).length :=
      (List.length_map _ _).symm
    rw [hlen, hnames, hempty]
    simp only [List.map_nil]
    rw [foldl_insertName_length_nil]
    have hsets : (acts.map (fun x => x.name)).toFinset =
        ((cs.filter (fun c => hasResolvable rt c)).map (fun c => c.name)).toFinset := by
      refine Finset.ext (fun n => ?_)
      rw [List.mem_toFinset, List.mem_toFinset, actsOf_names_mem rt cs acts hacts n]
      constructor
      · rintro ⟨c, hc, hres, hname⟩
        exact List.mem_map.mpr ⟨c, List.mem_filter.mpr ⟨hc, hres⟩, hname⟩
      · intro hn
        rcases List.mem_map.mp hn with ⟨c, hc, hname⟩
        rcases List.mem_filter.mp hc with ⟨hc', hres⟩
        exact ⟨c, hc', hres, hname⟩
    rw [← List.card_toFinset, ← List.card_toFinset, hsets]
  · intro rows r hnone
    unfold upsertCountry
    rw [if_neg]
    intro hany
    rcases List.any_eq_true.mp hany with ⟨x, hx, hxn⟩
    exact hnone x hx (of_decide_eq_true hxn)
  · intro rows r x hx hxn
    have hany : rows.any (fun y => y.name = r.name) = true :=
      List.any_eq_true.mpr ⟨x, hx, decide_eq_true hxn⟩
    unfold upsertCountry
    rw [if_pos hany]
    refine ⟨List.length_map _ _, List.mem_map.mpr ⟨x, hx, ?_⟩⟩
    rw [if_pos hxn]

/-- C2 witness: from an empty store, the sync of three upstream payloads —
"A" (USD), "B" (EUR) and a duplicate "A" (USD) — against the table
{USD: 2, EUR: 4} yields a store whose row names have no duplicates and
whose row count is 2 (countries deduplicated by name). -/
theorem C2_witness :
    (((create_country emptyStore (.ok exCs2) (.ok exRt2) (fun _ => 1000) 7
        true).2).countries.map (fun r => r.name)).Nodup ∧
    ((create_country emptyStore (.ok exCs2) (.ok exRt2) (fun _ => 1000) 7
        true).2).countries.length = 2 := by
  have hfst : (create_country emptyStore (.ok exCs2) (.ok exRt2) (fun _ => 1000) 7
      true).1 = .ok () := by
    norm_num [create_country, stageAll, stageCountries, stageCountry, stageCurrencies,
      stageCurrency, fetch_rate, lookupRate, compute_estimated_gdp, upsertCountry, mkRow,
      exCs2, exRt2, exCountryA, exCountryB, exCountryA2, emptyStore, List.lookup,
      (show (("EUR" : String) == "USD") = false by decide),
      (show (("EUR" : String) == "EUR") = true by decide),
      (show (("USD" : String) == "USD") = true by decide),
      (show ¬ ("A" : String) = "B" by decide),
      (show ¬ ("B" : String) = "A" by decide)]
  have h : create_country emptyStore (.ok exCs2) (.ok exRt2) (fun _ => 1000) 7 true =
      (.ok (), (create_country emptyStore (.ok exCs2) (.ok exRt2) (fun _ => 1000) 7
        true).2) := by
    calc create_country emptyStore (.ok exCs2) (.ok exRt2) (fun _ => 1000) 7 true
        = ((create_country emptyStore (.ok exCs2) (.ok exRt2) (fun _ => 1000) 7 true).1,
           (create_country emptyStore (.ok exCs2) (.ok exRt2) (fun _ => 1000) 7 true).2) :=
          rfl
      _ = (.ok (), (create_country emptyStore (.ok exCs2) (.ok exRt2) (fun _ => 1000) 7
            true).2) := by rw [hfst]
  have hmain := C2_name_upsert_key emptyStore _ exCs2 exRt2 (fun _ => 1000) 7 h
  refine ⟨hmain.1 (by simp [emptyStore]), ?_⟩
  rw [hmain.2.1 rfl]
  decide

/-! ### C3 — abort on primary-fetch failure, rollback on any staging error -/

/-- C3: (i) if the country-list fetch fails, the sync fails with
`UpstreamUnavailable` and the store is unchanged — no partial sync; (ii)
for every error raised during staging (fetch, validation, rate resolution,
GDP computation) the staged batch is discarded, the store is returned
unchanged, and the original error is re-raised. -/
theorem C3_rollback_on_error :
    (∀ (s : Store) (rf : FetchOutcome RatesTable) (f : ℕ → ℚ) (now : ℕ) (img : Bool),
      create_country s .transportError rf f now img = (.error .upstreamUnavailable, s)) ∧
    (∀ (s : Store) (cf : FetchOutcome (List CountryApiItem))
        (rf : FetchOutcome RatesTable) (f : ℕ → ℚ) (now : ℕ) (img : Bool) (e : Err),
      stageAll s cf rf f now = .error e →
      create_country s cf rf f now img = (.error e, s)) := by
  constructor
  · intro s rf f now img
    simp [create_country, stageAll]
  · intro s cf rf f now img e h
    simp [create_country, h]

/-- C3 witness: the rollback conjunct applied at a concrete staging error —
the rates fetch fails at the transport layer while processing country "A",
so the sync returns `UpstreamUnavailable` and leaves the store unchanged. -/
theorem C3_witness :
    create_country emptyStore (.ok exCs) .transportError (fun _ => 1000) 5 true =
      (.error .upstreamUnavailable, emptyStore) := by
  apply C3_rollback_on_error.2
  simp [stageAll, stageCountries, stageCountry, stageCurrencies, stageCurrency,
    fetch_rate, exCs, exCountryA, emptyStore]

/-! ### C8 — image failure after commit does not undo the commit -/

/-- C8: when staging and commit succeed, a failure in the summary-image
rendering surfaces as a sync-level error, but the store visible afterwards
is exactly the committed store — the same store a fully successful run
produces; the rollback in the exception handler cannot undo the commit. -/
theorem C8_image_failure_after_commit (s s' : Store)
    (cf : FetchOutcome (List CountryApiItem)) (rf : FetchOutcome RatesTable)
    (f : ℕ → ℚ) (now : ℕ)
    (h : stageAll s cf rf f now = .ok s') :
    create_country s cf rf f now false = (.error .imageError, s') ∧
    create_country s cf rf f now true = (.ok (), s') := by
  constructor <;> simp [create_country, h]

/-- The store committed by the one-country example sync. -/
def exRowA2500 : CountryRow :=
  { name := "A", capital := none, region := none, population := 5,
    currency_code := "USD", exchange_rate := 2, estimated_gdp := 2500,
    flag_url := "f", independent := true, last_refreshed_at := 1 }

/-- C8 witness: the asymmetry theorem applied at the concrete one-country
input: with image rendering failing, the result is `imageError` but the
committed row and status update persist. -/
theorem C8_witness :
    create_country emptyStore (.ok exCs) (.ok exRt) (fun _ => 1000) 1 false =
      (.error .imageError, { countries := [exRowA2500], status_last := some 1 }) ∧
    create_country emptyStore (.ok exCs) (.ok exRt) (fun _ => 1000) 1 true =
      (.ok (), { countries := [exRowA2500], status_last := some 1 }) := by
  apply C8_image_failure_after_commit
  norm_num [stageAll, stageCountries, stageCountry, stageCurrencies,
    stageCurrency, fetch_rate, lookupRate, compute_estimated_gdp, upsertCountry, mkRow,
    exCs, exRt, exCountryA, emptyStore, exRowA2500, List.lookup]

/-! ### C9 — a zero rate aborts the whole sync -/

/-- C9: when the rates table maps "USD" to exactly 0, `fetch_rate` returns
`0` (not `None`), so the pipeline's `is None` check does not skip the
pair; `compute_estimated_gdp` then divides by zero, and the resulting
`ZeroDivisionError` aborts the entire sync with a rollback: for every
starting store, factor stream and clock, the sync returns the
`zeroDivision` error and the unchanged store. -/
theorem C9_zero_rate_aborts (s : Store) (f : ℕ → ℚ) (now : ℕ) (img : Bool) :
    fetch_rate (.ok exRtZero) (some "USD") = .ok (some 0) ∧
    compute_estimated_gdp 5 (f 0) 0 = .error .zeroDivision ∧
    create_country s (.ok exCs) (.ok exRtZero) f now img = (.error .zeroDivision, s) := by
  refine ⟨by simp [fetch_rate, lookupRate, exRtZero, List.lookup], ?_, ?_⟩
  · simp [compute_estimated_gdp]
  · simp [create_country, stageAll, stageCountries, stageCountry, stageCurrencies,
      stageCurrency, fetch_rate, lookupRate, compute_estimated_gdp,
      exCs, exRtZero, exCountryA, List.lookup]

/-- C9 witness: the zero-rate theorem at the empty store with a concrete
factor stream and clock. -/
theorem C9_witness :
    create_country emptyStore (.ok exCs) (.ok exRtZero) (fun _ => 1000) 4 true =
      (.error .zeroDivision, emptyStore) :=
  (C9_zero_rate_aborts emptyStore (fun _ => 1000) 4 true).2.2

/-! ### C4 — GDP estimate range -/

/-- C4: for every non-negative population `P`, positive rate `R` and drawn
factor `f` in `[1000, 2000)`, `compute_estimated_gdp` returns
`P * f / R`, which lies in the interval `[1000*P/R, 2000*P/R]`. -/
theorem C4_gdp_range (P : ℕ) (f R : ℚ) (hR : 0 < R) (hf1 : 1000 ≤ f)
    (hf2 : f < 2000) :
    compute_estimated_gdp P f R = .ok ((P * f) / R) ∧
    1000 * P / R ≤ (P * f) / R ∧ (P * f) / R ≤ 2000 * P / R := by
  have hP : (0 : ℚ) ≤ (P : ℚ) := Nat.cast_nonneg P
  refine ⟨by simp [compute_estimated_gdp, ne_of_gt hR], ?_, ?_⟩
  · rw [div_le_div_iff_of_pos_right hR, mul_comm (1000 : ℚ) (P : ℚ)]
    exact mul_le_mul_of_nonneg_left hf1 hP
  · rw [div_le_div_iff_of_pos_right hR, mul_comm (2000 : ℚ) (P : ℚ)]
    exact mul_le_mul_of_nonneg_left (le_of_lt hf2) hP

/-- C4 witness: the range theorem at population 3, factor 1500, rate 2. -/
theorem C4_witness :
    compute_estimated_gdp 3 1500 2 = .ok ((((3 : ℕ) : ℚ) * 1500) / 2) ∧
    1000 * ((3 : ℕ) : ℚ) / 2 ≤ (((3 : ℕ) : ℚ) * 1500) / 2 ∧
    (((3 : ℕ) : ℚ) * 1500) / 2 ≤ 2000 * ((3 : ℕ) : ℚ) / 2 :=
  C4_gdp_range 3 1500 2 (by norm_num) (by norm_num) (by norm_num)

/-! ### C5 — skip, don't fail -/

/-- C5, counterexample.  The claim says `fetch_rate` raises
`UpstreamUnavailable` on transport *or validation* failure; in the code a
payload-validation failure is raised raw by
`CurrencyApiResponse.model_validate` and re-raised unchanged by
`fetch_rate`'s handler, so the surfaced error is the validation error, not
`ServiceUnavailableError`. -/
theorem C5_counterexample :
    fetch_rate .invalidPayload (some "USD") = .error .validationError ∧
    (Except.error .validationError : Except Err (Option ℚ)) ≠
      .error .upstreamUnavailable :=
  ⟨rfl, by simp⟩

lemma lookup_eq_none_of_not_key (code : String) :
    ∀ rt : List (String × ℚ), (∀ p ∈ rt, p.1 ≠ code) → rt.lookup code = none
  | [], _ => rfl
  | (k, v) :: rest, h => by
      have hk : k ≠ code := h (k, v) (List.mem_cons_self _ _)
      have hb : (code == k) = false := beq_eq_false_iff_ne.mpr (fun hc => hk hc.symm)
      simp only [List.lookup, hb]
      exact lookup_eq_none_of_not_key code rest
        (fun p hp => h p (List.mem_cons_of_mem _ hp))

/-- C5 (amended): (i) `fetch_rate` returns `None` — not an error — whenever
the code is absent from the fetched table; (ii) it raises
`UpstreamUnavailable` on transport failure, and (iii) the raw validation
error (unwrapped) on payload-validation failure; (iv) a country with no
currencies is skipped without error; (v) a (country, currency) pair whose
rate resolves to `None` is skipped and the loop continues with the
remaining pairs. -/
theorem C5_skip_policy :
    (∀ (rt : RatesTable) (code : String), (∀ p ∈ rt, p.1 ≠ code) →
      fetch_rate (.ok rt) (some code) = .ok none) ∧
    (∀ code : Option String,
      fetch_rate .transportError code = .error .upstreamUnavailable) ∧
    (∀ code : Option String,
      fetch_rate .invalidPayload code = .error .validationError) ∧
    (∀ (rf : FetchOutcome RatesTable) (f : ℕ → ℚ) (now : ℕ) (st : StageSt)
        (c : CountryApiItem), c.currencies = none ∨ c.currencies = some [] →
      stageCountry rf f now st c = .ok st) ∧
    (∀ (rt : RatesTable) (f : ℕ → ℚ) (now : ℕ) (c : CountryApiItem)
        (st : StageSt) (cur : CurrencyItem) (rest : List CurrencyItem),
      lookupRate rt cur.code = none →
      stageCurrencies (.ok rt) f now c st (cur :: rest) =
        stageCurrencies (.ok rt) f now c st rest) := by
  refine ⟨?_, fun _ => rfl, fun _ => rfl, ?_, ?_⟩
  · intro rt code h
    simp [fetch_rate, lookupRate, lookup_eq_none_of_not_key code rt h]
  · intro rf f now st c h
    rcases h with h | h <;> simp [stageCountry, h, stageCurrencies]
  · intro rt f now c st cur rest h
    cases hcode : cur.code with
    | none => simp [stageCurrencies, stageCurrency, hcode, fetch_rate]
    | some code =>
        rw [hcode] at h
        simp only [lookupRate] at h
        simp [stageCurrencies, stageCurrency, hcode, fetch_rate, lookupRate, h]

/-- C5 witness: the skip-policy theorem at concrete inputs — a missing
"EUR" code resolves to `None` without error; a currency-less country is
skipped; a pair with unresolvable rate is skipped while the loop
continues. -/
theorem C5_witness :
    fetch_rate (.ok exRt) (some "EUR") = .ok none ∧
    stageCountry (.ok exRt) (fun _ => 1000) 3 ([], 0)
      { name := "N", population := 1, capital := none, region := none,
        currencies := none, flag := "x", independent := true } = .ok ([], 0) ∧
    stageCurrencies (.ok exRt) (fun _ => 1000) 3 exCountryA ([], 0)
      ({ code := some "EUR", cname := none, symbol := none } ::
        [{ code := some "USD", cname := none, symbol := none }]) =
      stageCurrencies (.ok exRt) (fun _ => 1000) 3 exCountryA ([], 0)
        [{ code := some "USD", cname := none, symbol := none }] :=
  ⟨C5_skip_policy.1 exRt "EUR" (by decide),
   C5_skip_policy.2.2.2.1 _ _ _ _ _ (Or.inl rfl),
   C5_skip_policy.2.2.2.2 _ _ _ _ _ _ _ (by decide)⟩

/-! ### C6 — status query contents -/

def exRow10A : CountryRow :=
  { name := "A", capital := none, region := none, population := 5,
    currency_code := "USD", exchange_rate := 2, estimated_gdp := 10,
    flag_url := "f", independent := true, last_refreshed_at := 1 }

def exRow10B : CountryRow :=
  { name := "B", capital := some "b", region := some "R", population := 7,
    currency_code := "EUR", exchange_rate := 4, estimated_gdp := 10,
    flag_url := "g", independent := false, last_refreshed_at := 1 }

def exStoreA : Store := { countries := [exRow10A], status_last := some 5 }

def exStoreB : Store := { countries := [exRow10B], status_last := some 5 }

/-- C6, counterexample.  The claim says `get_status` returns "the top 5
Country rows"; the code selects only the `estimated_gdp` column
(`select(Country.estimated_gdp)`) — the returned payload holds bare GDP
values, not rows.  Two stores holding different single rows with equal
`estimated_gdp` are indistinguishable through `Service.status`, while
their top-5 row lists (the spec's wording) differ — so `status` does not
return (or even determine) the top rows. -/
theorem C6_counterexample :
    Service.status exStoreA = Service.status exStoreB ∧
    top5RowsSpec exStoreA ≠ top5RowsSpec exStoreB := by
  constructor
  · simp [Service.status, exStoreA, exStoreB, exRow10A, exRow10B]
  · have hA : top5RowsSpec exStoreA = [exRow10A] := by
      unfold top5RowsSpec
      rw [show exStoreA.countries = [exRow10A] from rfl,
        List.perm_singleton.mp (List.mergeSort_perm [exRow10A] _)]
      rfl
    have hB : top5RowsSpec exStoreB = [exRow10B] := by
      unfold top5RowsSpec
      rw [show exStoreB.countries = [exRow10B] from rfl,
        List.perm_singleton.mp (List.mergeSort_perm [exRow10B] _)]
      rfl
    rw [hA, hB]
    intro hcontra
    have : exRow10A = exRow10B := by
      have := List.cons.injEq exRow10A [] exRow10B [] ▸ hcontra
      exact (List.cons.inj hcontra).1
    have hnames : exRow10A.name = exRow10B.name := by rw [this]
    simp [exRow10A, exRow10B] at hnames

/-- C6 (amended): `Service.status` returns the total row count, the status
singleton's `last_refreshed_at` (`none` if never synced), and the top 5
`estimated_gdp` *values* in descending order (fewer when the store has
fewer rows): the returned `top_5` is sorted descending, has length
`min 5 (row count)`, and together with some remainder `rest` of smaller
values is a permutation of all the stores' GDP values. -/
theorem C6_status_contents (s : Store) :
    (Service.status s).total_countries = s.countries.length ∧
    (Service.status s).last_refreshed_at = s.status_last ∧
    (Service.status s).top_5.Pairwise (fun a b => b ≤ a) ∧
    (Service.status s).top_5.length = min 5 s.countries.length ∧
    ∃ rest, ((Service.status s).top_5 ++ rest).Perm
        (s.countries.map (fun r => r.estimated_gdp)) ∧
      ∀ a ∈ (Service.status s).top_5, ∀ b ∈ rest, b ≤ a := by
  have htop : (Service.status s).top_5 =
      ((s.countries.map (fun c => c.estimated_gdp)).mergeSort
        (fun a b => decide (b ≤ a))).take 5 := rfl
  have hsorted : ((s.countries.map (fun c => c.estimated_gdp)).mergeSort
      (fun a b => decide (b ≤ a))).Pairwise (fun a b => (decide (b ≤ a)) = true) := by
    refine List.sorted_mergeSort ?_ ?_ _
    · intro a b c hab hbc
      simp only [decide_eq_true_eq] at *
      exact le_trans hbc hab
    · intro a b
      rcases le_total b a with h | h <;> simp [h]
  refine ⟨by simp [Service.status], rfl, ?_, ?_, ?_⟩
  · rw [htop]
    exact (List.Pairwise.sublist (List.take_sublist 5 _) hsorted).imp
      (fun h => of_decide_eq_true h)
  · rw [htop, List.length_take, List.length_mergeSort, List.length_map]
  · refine ⟨((s.countries.map (fun c => c.estimated_gdp)).mergeSort
      (fun a b => decide (b ≤ a))).drop 5, ?_, ?_⟩
    · rw [htop, List.take_append_drop]
      exact List.mergeSort_perm _ _
    · rw [htop]
      intro a ha b hb
      have hsplit := hsorted
      rw [← List.take_append_drop 5 ((s.countries.map
        (fun c => c.estimated_gdp)).mergeSort (fun a b => decide (b ≤ a)))] at hsplit
      rcases List.pairwise_append.mp hsplit with ⟨-, -, hcross⟩
      exact of_decide_eq_true (hcross a ha b hb)

/-- C6 witness: the amended status theorem at the concrete one-row store. -/
theorem C6_witness :
    (Service.status exStoreA).total_countries = exStoreA.countries.length ∧
    (Service.status exStoreA).last_refreshed_at = exStoreA.status_last :=
  ⟨(C6_status_contents exStoreA).1, (C6_status_contents exStoreA).2.1⟩

/-! ### C7 — case-insensitive fetch by name -/

lemma filter_lower_eq_singleton (f : CountryRow → String) :
    ∀ (l : List CountryRow) (r : CountryRow), (l.map f).Nodup → r ∈ l →
      l.filter (fun x => f x = f r) = [r] := by
  intro l
  induction l with
  | nil => intro r _ hr; cases hr
  | cons a l ih =>
      intro r hnd hr
      rw [List.map_cons] at hnd
      rcases List.nodup_cons.mp hnd with ⟨hfa, hnd'⟩
      rcases List.mem_cons.mp hr with rfl | hr'
      · rw [List.filter_cons_of_pos (by simp)]
        have : l.filter (fun x => f x = f r) = [] := by
          rw [List.filter_eq_nil_iff]
          intro x hx
          simp only [decide_eq_true_eq]
          intro hfx
          exact hfa (List.mem_map.mpr ⟨x, hx, hfx⟩)
        rw [this]
      · have hne : ¬ f a = f r := by
          intro hfa'
          exact hfa (hfa' ▸ List.mem_map.mpr ⟨r, hr', rfl⟩)
        rw [List.filter_cons_of_neg (by simpa using hne)]
        exact ih r hnd' hr'

/-- C7: when the store's names are pairwise distinct after lower-casing,
(i) fetching any case variant of a stored country's name returns exactly
that row, and (ii) fetching a name that matches no stored row (after
lower-casing) fails with `NotFound`. -/
theorem C7_case_insensitive (s : Store) :
    (∀ (r : CountryRow) (q : String),
      (s.countries.map (fun c => lowerStr c.name)).Nodup →
      r ∈ s.countries → lowerStr q = lowerStr r.name →
      fetch_by_name s q = .ok r) ∧
    (∀ q : String, (∀ r ∈ s.countries, lowerStr r.name ≠ lowerStr q) →
      fetch_by_name s q = .error .notFound) := by
  constructor
  · intro r q hnd hr hq
    unfold fetch_by_name
    simp only [hq]
    rw [filter_lower_eq_singleton (fun c => lowerStr c.name) s.countries r hnd hr]
  · intro q hnone
    unfold fetch_by_name
    have : s.countries.filter (fun c => lowerStr c.name = lowerStr q) = [] := by
      rw [List.filter_eq_nil_iff]
      intro x hx
      simpa using hnone x hx
    rw [this]

def exRowNigeria : CountryRow :=
  { name := "Nigeria", capital := some "Abuja", region := some "Africa",
    population := 5, currency_code := "NGN", exchange_rate := 2,
    estimated_gdp := 10, flag_url := "f", independent := true,
    last_refreshed_at := 1 }

def exStoreNigeria : Store := { countries := [exRowNigeria], status_last := some 1 }

/-- C7 witness: in a store holding only the "Nigeria" row, fetching
"NIGERIA" returns that row and fetching "ghana" fails with `NotFound`. -/
theorem C7_witness :
    fetch_by_name exStoreNigeria "NIGERIA" = .ok exRowNigeria ∧
    fetch_by_name exStoreNigeria "ghana" = .error .notFound :=
  ⟨(C7_case_insensitive exStoreNigeria).1 exRowNigeria "NIGERIA" (by decide)
      (by decide) (by decide),
   (C7_case_insensitive exStoreNigeria).2 "ghana" (by decide)⟩

/-! ### C10 — duplicate case-insensitive names break the name queries -/

/-- C10: the `Country` table has no unique constraint on `name`, so the
store can hold two rows whose names are equal after lower-casing; whenever
at least two rows match the queried name case-insensitively,
`scalar_one_or_none` raises `MultipleResultsFound`, so `fetch_by_name` —
and therefore `delete_country`, which resolves through it — surfaces the
multiple-results store error (leaving the store unchanged) instead of
returning a record or raising `NotFound`. -/
theorem C10_duplicate_name_multiple_results (s : Store) (q : String)
    (h : 2 ≤ (s.countries.filter (fun c => lowerStr c.name = lowerStr q)).length) :
    fetch_by_name s q = .error .multipleResults ∧
    delete_country s q = (.error .multipleResults, s) := by
  have hfetch : fetch_by_name s q = .error .multipleResults := by
    unfold fetch_by_name
    cases hf : s.countries.filter (fun c => lowerStr c.name = lowerStr q) with
    | nil => rw [hf] at h; simp at h
    | cons a t =>
        cases t with
        | nil => rw [hf] at h; simp at h
        | cons b t' => rfl
  exact ⟨hfetch, by simp [delete_country, hfetch]⟩

def exRowNigeriaUpper : CountryRow :=
  { name := "NIGERIA", capital := none, region := some "Africa",
    population := 6, currency_code := "NGN", exchange_rate := 2,
    estimated_gdp := 11, flag_url := "f2", independent := true,
    last_refreshed_at := 1 }

def exStoreDup : Store :=
  { countries := [exRowNigeria, exRowNigeriaUpper], status_last := some 1 }

/-- C10 witness: with rows "Nigeria" and "NIGERIA" both stored, querying
"nigeria" makes both the fetch and the delete surface the multiple-results
error. -/
theorem C10_witness :
    fetch_by_name exStoreDup "nigeria" = .error .multipleResults ∧
    delete_country exStoreDup "nigeria" = (.error .multipleResults, exStoreDup) :=
  C10_duplicate_name_multiple_results exStoreDup "nigeria" (by decide)

end CountrySvc
